import Mathlib

/-!
Shallow embedding of the spatial bounding-volume store in
NativePlugin/libAssImp/NativeOctree/SpatialPartitioner.h and
SpatialPartitioner.cpp.

Spatial lane values (the x, y, z lanes of the SSE vectors) are modelled as
exact rationals: C++ single-precision floats are a subset of the rationals,
and on the spatial lanes the code only compares values and, at construction,
adds or subtracts caller-supplied coordinates.  The fourth lane of each
vector is kept as a raw 32-bit pattern, because the code parks the bit
pattern of an int32 id there and the pattern itself (not a numeric value) is
what the operations transport.  The IEEE-754 effects that matter on that
lane (the +0.0 added by the constructor, the comparison semantics of NaN
patterns) are modelled explicitly at the bit level.
-/

namespace Blocks

/-- IEEE-754 single precision: the 32-bit pattern is a NaN
(exponent field all ones, mantissa nonzero). -/
def isNaNBits (b : Nat) : Bool :=
  (b / 2 ^ 23) % 2 ^ 8 == 255 && b % 2 ^ 23 != 0

/-- IEEE-754 single precision: the pattern is a signalling NaN
(a NaN whose quiet bit, bit 22, is clear). -/
def isSNaNBits (b : Nat) : Bool :=
  isNaNBits b && (b / 2 ^ 22) % 2 == 0

/-- Effect, on the 32-bit pattern, of the IEEE-754 single addition
x + (+0.0) in round-to-nearest as ADDPS performs it on lane 3 of the
constructor's vecmax = v_center + v_extents: the pattern of -0.0 becomes
+0.0, a signalling NaN is quieted (bit 22 set, payload kept), and every
other pattern is returned unchanged. -/
def addPosZero (b : Nat) : Nat :=
  if b == 2 ^ 31 then 0
  else if isSNaNBits b then b + 2 ^ 22
  else b

/-- Effect on the 32-bit pattern of the IEEE-754 single subtraction
x - (+0.0) as SUBPS performs it on lane 3 of vecmin = v_center - v_extents:
a signalling NaN is quieted, every other pattern (including -0.0) is
returned unchanged. -/
def subPosZero (b : Nat) : Nat :=
  if isSNaNBits b then b + 2 ^ 22 else b

/-- Two's-complement 32-bit pattern of an int32 value: the bits that
reinterpret_cast<float &>(id) places into the lane. -/
def bitsOfId (id : Int) : Nat := (id % 2 ^ 32).toNat

/-- The int32 value read back from a 32-bit lane pattern by
_mm_cvtsi128_si32(_mm_castps_si128(...)). -/
def idOfBits (b : Nat) : Int :=
  if b < 2 ^ 31 then (b : Int) else (b : Int) - 2 ^ 32

/-- Sign bit of a 32-bit pattern. -/
def signBit (b : Nat) : Bool := (b / 2 ^ 31) % 2 == 1

/-- IEEE-754 single `<` on raw 32-bit patterns (the lane semantics of
CMPLTPS): false if either operand is NaN, +0.0 and -0.0 compare equal, and
otherwise sign/magnitude order (infinities included as ordinary large
magnitudes). -/
def fltBits (a b : Nat) : Bool :=
  if isNaNBits a || isNaNBits b then false
  else if a % 2 ^ 31 == 0 && b % 2 ^ 31 == 0 then false
  else if signBit a then
    (if signBit b then decide (b % 2 ^ 31 < a % 2 ^ 31) else true)
  else
    (if signBit b then false else decide (a % 2 ^ 31 < b % 2 ^ 31))

/-- IEEE-754 single `>` on raw 32-bit patterns (CMPGTPS lane semantics). -/
def fgtBits (a b : Nat) : Bool := fltBits b a

/-- Mirror of struct Vector3 (three single-precision coordinates, modelled
exactly as rationals). -/
structure Vector3 where
  x : Rat
  y : Rat
  z : Rat
deriving DecidableEq

/-- Mirror of struct AABB: the two four-lane vectors vecmin and vecmax.
Lanes 0 to 2 of each are spatial coordinates; lane 3 is the raw 32-bit
pattern the code parks there (the reinterpreted id in vecmax). -/
structure AABB where
  minx : Rat
  miny : Rat
  minz : Rat
  minw : Nat
  maxx : Rat
  maxy : Rat
  maxz : Rat
  maxw : Nat
deriving DecidableEq, Inhabited

/-- AABB::AABB(int32_t id, Vector3 center, Vector3 extents):
v_center = (center.x, center.y, center.z, bits of id),
v_extents = (extents.x, extents.y, extents.z, +0.0),
vecmin = v_center - v_extents, vecmax = v_center + v_extents. -/
def mkAABB (id : Int) (center extents : Vector3) : AABB where
  minx := center.x - extents.x
  miny := center.y - extents.y
  minz := center.z - extents.z
  minw := subPosZero (bitsOfId id)
  maxx := center.x + extents.x
  maxy := center.y + extents.y
  maxz := center.z + extents.z
  maxw := addPosZero (bitsOfId id)

/-- int32_t IdFromAABB(AABB &box): broadcast lane 3 of vecmax and
reinterpret the resulting 32-bit pattern as an int32. -/
def IdFromAABB (box : AABB) : Int := idOfBits box.maxw

/-- _mm_movemask_ps: one bit per comparison lane, lane 0 in the lowest
bit. -/
def movemask (b0 b1 b2 b3 : Bool) : Nat :=
  (if b0 then 1 else 0) + 2 * (if b1 then 1 else 0)
    + 4 * (if b2 then 1 else 0) + 8 * (if b3 then 1 else 0)

/-- bool intersects(AABB &volume0, AABB &volume1), the SSE path:
temp = cmplt(volume0.vecmax, volume1.vecmin) OR
cmpgt(volume0.vecmin, volume1.vecmax) lane-wise; the boxes intersect iff
(_mm_movemask_ps(temp) & 7) <= 0. -/
def intersects (volume0 volume1 : AABB) : Bool :=
  decide (movemask
    (decide (volume0.maxx < volume1.minx) || decide (volume0.minx > volume1.maxx))
    (decide (volume0.maxy < volume1.miny) || decide (volume0.miny > volume1.maxy))
    (decide (volume0.maxz < volume1.minz) || decide (volume0.minz > volume1.maxz))
    (fltBits volume0.maxw volume1.minw || fgtBits volume0.minw volume1.maxw)
    &&& 7 ≤ 0)

/-- bool intersectsOrig(AABB &volume0, AABB &volume1): the scalar reference
loop over the three spatial axes (lanes 0, 1, 2 of m128_f32, here unrolled),
returning 0 as soon as one axis separates the boxes. -/
def intersectsOrig (volume0 volume1 : AABB) : Bool :=
  if volume0.maxx < volume1.minx ∨ volume0.minx > volume1.maxx then false
  else if volume0.maxy < volume1.miny ∨ volume0.miny > volume1.maxy then false
  else if volume0.maxz < volume1.minz ∨ volume0.minz > volume1.maxz then false
  else true

/-- int contains(AABB &volume0, AABB &volume1), the SSE path checking that
volume1 is completely contained in volume0:
temp = cmpgt(volume0.vecmin, volume1.vecmin) OR
cmplt(volume0.vecmax, volume1.vecmax); containment iff
(_mm_movemask_ps(temp) & 7) <= 0. -/
def contains (volume0 volume1 : AABB) : Bool :=
  decide (movemask
    (decide (volume0.minx > volume1.minx) || decide (volume0.maxx < volume1.maxx))
    (decide (volume0.miny > volume1.miny) || decide (volume0.maxy < volume1.maxy))
    (decide (volume0.minz > volume1.minz) || decide (volume0.maxz < volume1.maxz))
    (fgtBits volume0.minw volume1.minw || fltBits volume0.maxw volume1.maxw)
    &&& 7 ≤ 0)

/-- The data-model invariant for a box: min <= max on every spatial axis
(violated only when the caller supplies negative extents). -/
def wellFormedBox (b : AABB) : Bool :=
  decide (b.minx ≤ b.maxx) && decide (b.miny ≤ b.maxy) && decide (b.minz ≤ b.maxz)

theorem bitsOfId_ofNat (n : Nat) (h : n < 2 ^ 32) : bitsOfId (n : Int) = n := by
  unfold bitsOfId
  rw [Int.emod_eq_of_lt (by positivity) (by exact_mod_cast h)]
  exact Int.toNat_ofNat n

theorem decide_movemask_and7 (b0 b1 b2 b3 : Bool) :
    decide (movemask b0 b1 b2 b3 &&& 7 ≤ 0) = (!b0 && !b1 && !b2) := by
  cases b0 <;> cases b1 <;> cases b2 <;> cases b3 <;> decide

/-- Claim C1: the vectorized predicate `intersects` returns the same boolean
as the scalar reference `intersectsOrig` on every pair of AABBs, including
boxes that touch on a face and boxes fully separated on an axis. -/
theorem intersects_eq_intersectsOrig (A B : AABB) :
    intersects A B = intersectsOrig A B := by
  unfold intersects intersectsOrig
  rw [decide_movemask_and7]
  simp only [Bool.or_eq_decide]
  by_cases h0 : A.maxx < B.minx ∨ A.minx > B.maxx <;>
    by_cases h1 : A.maxy < B.miny ∨ A.miny > B.maxy <;>
      by_cases h2 : A.maxz < B.minz ∨ A.minz > B.maxz <;>
        simp [h0, h1, h2]

/-- Box used in the C6 counterexample: a degenerate point box at (5,5,5),
built by the real constructor. -/
def cexBoxA : AABB := mkAABB 1 ⟨5, 5, 5⟩ ⟨0, 0, 0⟩

/-- Box used in the C6 counterexample: the constructor fed the negative
extents (-5,-5,-5), producing the malformed box min = (10,10,10),
max = (0,0,0). -/
def cexBoxB : AABB := mkAABB 2 ⟨5, 5, 5⟩ ⟨-5, -5, -5⟩

theorem cexBoxA_eval : cexBoxA = ⟨5, 5, 5, 1, 5, 5, 5, 1⟩ := by
  unfold cexBoxA mkAABB
  congr 1 <;> first | norm_num | decide

theorem cexBoxB_eval : cexBoxB = ⟨10, 10, 10, 2, 0, 0, 0, 2⟩ := by
  unfold cexBoxB mkAABB
  congr 1 <;> first | norm_num | decide

/-- Claim C6, counterexample: on a malformed box (min > max, as the real
constructor produces from negative extents) containment does not imply
intersection: contains holds for the pair but intersects is false. -/
theorem contains_not_imp_intersects :
    contains cexBoxA cexBoxB = true ∧ intersects cexBoxA cexBoxB = false := by
  rw [cexBoxA_eval, cexBoxB_eval]
  decide

/-- Claim C6, amended: whenever the contained box B satisfies the
data-model invariant min <= max on each spatial axis, contains(A,B) = true
implies intersects(A,B) = true. -/
theorem contains_imp_intersects (A B : AABB) (hB : wellFormedBox B = true)
    (hc : contains A B = true) : intersects A B = true := by
  unfold contains at hc
  unfold intersects
  rw [decide_movemask_and7] at hc ⊢
  simp only [wellFormedBox, Bool.and_eq_true, decide_eq_true_eq] at hB
  simp only [Bool.and_eq_true, Bool.not_eq_true', Bool.or_eq_false_iff,
    decide_eq_false_iff_not, not_lt] at hc ⊢
  obtain ⟨⟨⟨hx1, hx2⟩, hy1, hy2⟩, hz1, hz2⟩ := hc
  refine ⟨⟨⟨?_, ?_⟩, ?_, ?_⟩, ?_, ?_⟩ <;> linarith [hB.1.1, hB.1.2, hB.2]

/-- Box used in the C6 witness: the cube of half-width 2 around the
origin. -/
def witBoxA : AABB := mkAABB 1 ⟨0, 0, 0⟩ ⟨2, 2, 2⟩

/-- Box used in the C6 witness: the cube of half-width 1 around the
origin. -/
def witBoxB : AABB := mkAABB 2 ⟨0, 0, 0⟩ ⟨1, 1, 1⟩

theorem witBoxA_eval : witBoxA = ⟨-2, -2, -2, 1, 2, 2, 2, 1⟩ := by
  unfold witBoxA mkAABB
  congr 1 <;> first | norm_num | decide

theorem witBoxB_eval : witBoxB = ⟨-1, -1, -1, 2, 1, 1, 1, 2⟩ := by
  unfold witBoxB mkAABB
  congr 1 <;> first | norm_num | decide

/-- Witness for the amended C6 at a concrete containing pair. -/
theorem contains_imp_intersects_witness : intersects witBoxA witBoxB = true :=
  contains_imp_intersects witBoxA witBoxB
    (by rw [witBoxB_eval]; decide)
    (by rw [witBoxA_eval, witBoxB_eval]; decide)

/-- An id whose reinterpreted bit pattern survives the +0.0 the constructor
adds on lane 3: in int32 range, not INT_MIN = -2^31 (whose pattern is
-0.0, turned into +0.0 by the addition), and not a signalling-NaN pattern
(which the addition quiets). -/
def goodId (id : Int) : Bool :=
  decide (-(2 ^ 31) < id) && decide (id < 2 ^ 31) && !isSNaNBits (bitsOfId id)

theorem bitsOfId_lt (id : Int) : bitsOfId id < 2 ^ 32 := by
  unfold bitsOfId
  omega

theorem idOfBits_bitsOfId (id : Int) (h1 : -(2 ^ 31) ≤ id) (h2 : id < 2 ^ 31) :
    idOfBits (bitsOfId id) = id := by
  unfold bitsOfId idOfBits
  split <;> omega

theorem bitsOfId_idOfBits (b : Nat) (h : b < 2 ^ 32) :
    bitsOfId (idOfBits b) = b := by
  unfold bitsOfId idOfBits
  split <;> omega

theorem addPosZero_of_goodId (id : Int) (h : goodId id = true) :
    addPosZero (bitsOfId id) = bitsOfId id := by
  unfold goodId at h
  simp only [Bool.and_eq_true, decide_eq_true_eq, Bool.not_eq_true'] at h
  unfold addPosZero
  rw [if_neg, if_neg]
  · rw [h.2]
    exact Bool.false_ne_true
  · simp only [beq_iff_eq]
    unfold bitsOfId
    omega

/-- Claim C3, counterexample: for id = INT_MIN = -2147483648 the packed bit
pattern is that of -0.0; the constructor's +0.0 addition turns it into
+0.0, and the id read back is 0, not INT_MIN. -/
theorem idFromAABB_int_min :
    IdFromAABB (mkAABB (-2147483648) ⟨0, 0, 0⟩ ⟨0, 0, 0⟩) = 0 ∧
      (0 : Int) ≠ -2147483648 := by
  constructor
  · decide
  · decide

/-- Claim C3, amended: for every id in int32 range other than INT_MIN whose
bit pattern is not a signalling NaN, the id survives the round trip through
the fourth float lane: IdFromAABB(AABB(id, center, extents)) = id. -/
theorem idFromAABB_mkAABB (id : Int) (h : goodId id = true)
    (center extents : Vector3) :
    IdFromAABB (mkAABB id center extents) = id := by
  unfold IdFromAABB mkAABB
  simp only
  rw [addPosZero_of_goodId id h]
  unfold goodId at h
  simp only [Bool.and_eq_true, decide_eq_true_eq] at h
  exact idOfBits_bitsOfId id (le_of_lt h.1.1) h.1.2

/-- Witness for the amended C3 at id 42. -/
theorem idFromAABB_mkAABB_witness :
    IdFromAABB (mkAABB 42 ⟨1, 2, 3⟩ ⟨1, 1, 1⟩) = 42 :=
  idFromAABB_mkAABB 42 (by decide) ⟨1, 2, 3⟩ ⟨1, 1, 1⟩

/-- The id-to-slot mapping std::unordered_map<int, int>, modelled as an
association list; the operations below keep keys pairwise distinct.
unordered_map::find(key), as an Option-returning lookup. -/
def mapFind : List (Int × Nat) → Int → Option Nat
  | [], _ => none
  | (k, v) :: rest, key => if k = key then some v else mapFind rest key

/-- unordered_map operator[] used as the target of an assignment
m[key] = v: replaces the value if the key is present, otherwise inserts
the entry. -/
def mapSet : List (Int × Nat) → Int → Nat → List (Int × Nat)
  | [], key, v => [(key, v)]
  | (k, w) :: rest, key, v =>
    if k = key then (key, v) :: rest else (k, w) :: mapSet rest key v

/-- unordered_map::erase(key). -/
def mapErase (m : List (Int × Nat)) (key : Int) : List (Int × Nat) :=
  m.filter (fun e => !(e.1 == key))

/-- unordered_map operator[] used as an rvalue, with the C++ semantics: if
the key is missing, a value-initialized entry (value 0) is inserted and
returned.  Returns the value read together with the possibly extended
map. -/
def bracketGet (m : List (Int × Nat)) (key : Int) : Nat × List (Int × Nat) :=
  match mapFind m key with
  | some v => (v, m)
  | none => (0, mapSet m key 0)

/-- class SpatialPartitioner: the dense AABB sequence and the id-to-slot
map. -/
structure SpatialPartitioner where
  elementVector : List AABB
  idToIndex : List (Int × Nat)
deriving DecidableEq

/-- SpatialPartitioner::SpatialPartitioner(): both containers start
empty. -/
def emptyPartitioner : SpatialPartitioner := ⟨[], []⟩

/-- void SpatialPartitioner::AddItem(int itemId, Vector3 &, Vector3 &):
record itemId -> elementVector.size() in the map, then push_back the newly
constructed AABB. -/
def SpatialPartitioner.AddItem (p : SpatialPartitioner) (itemId : Int)
    (itemBoundsCenter itemBoundsSize : Vector3) : SpatialPartitioner :=
  { idToIndex := mapSet p.idToIndex itemId p.elementVector.length,
    elementVector :=
      p.elementVector ++ [mkAABB itemId itemBoundsCenter itemBoundsSize] }

/-- void SpatialPartitioner::UpdateItem(int itemId, Vector3, Vector3):
int index = idToIndex[itemId] (operator[], inserting 0 when absent), then
overwrite elementVector[index] with the freshly constructed AABB. -/
def SpatialPartitioner.UpdateItem (p : SpatialPartitioner) (itemId : Int)
    (itemBoundsCenter itemBoundsSize : Vector3) : SpatialPartitioner :=
  { elementVector :=
      p.elementVector.set (bracketGet p.idToIndex itemId).1
        (mkAABB itemId itemBoundsCenter itemBoundsSize),
    idToIndex := (bracketGet p.idToIndex itemId).2 }

/-- void SpatialPartitioner::RemoveItem(int itemId): when more than one
element is stored, look the slot up with operator[]; if it is the last
slot, pop_back and erase the key; otherwise read the id packed in the last
element, copy the last element over the removed slot, pop_back, erase the
removed key and repoint the moved id at the freed slot.  With zero or one
elements stored, clear both containers.  (Inside the guarded branch
elementVector.size() >= 2, so the size_t expression size() - 1 cannot
wrap.) -/
def SpatialPartitioner.RemoveItem (p : SpatialPartitioner) (itemId : Int) :
    SpatialPartitioner :=
  if 1 < p.elementVector.length then
    if (bracketGet p.idToIndex itemId).1 = p.elementVector.length - 1 then
      { elementVector := p.elementVector.dropLast,
        idToIndex := mapErase (bracketGet p.idToIndex itemId).2 itemId }
    else
      { elementVector :=
          (p.elementVector.set (bracketGet p.idToIndex itemId).1
            (p.elementVector.getD (p.elementVector.length - 1) default)).dropLast,
        idToIndex :=
          mapSet (mapErase (bracketGet p.idToIndex itemId).2 itemId)
            (IdFromAABB (p.elementVector.getD (p.elementVector.length - 1) default))
            (bracketGet p.idToIndex itemId).1 }
  else
    { elementVector := [], idToIndex := [] }

/-- The size_t value of elementVector.size() - 1: wraps to 2^64 - 1 on an
empty vector. -/
def sizeSub1 (len : Nat) : Nat := (len + 2 ^ 64 - 1) % 2 ^ 64

/-- The general swap-with-last branch of SpatialPartitioner::RemoveItem
applied unconditionally, the path spec 4.6 claims needs no zero/one-element
special-casing.  The size_t wraparound of size() - 1 on an empty vector is
modelled, and the C++ out-of-bounds read elementVector[size() - 1] on an
empty vector (undefined behaviour) is modelled by the default AABB. -/
def SpatialPartitioner.RemoveItemGeneral (p : SpatialPartitioner)
    (itemId : Int) : SpatialPartitioner :=
  if (bracketGet p.idToIndex itemId).1 = sizeSub1 p.elementVector.length then
    { elementVector := p.elementVector.dropLast,
      idToIndex := mapErase (bracketGet p.idToIndex itemId).2 itemId }
  else
    { elementVector :=
        (p.elementVector.set (bracketGet p.idToIndex itemId).1
          (p.elementVector.getD (sizeSub1 p.elementVector.length) default)).dropLast,
      idToIndex :=
        mapSet (mapErase (bracketGet p.idToIndex itemId).2 itemId)
          (IdFromAABB (p.elementVector.getD (sizeSub1 p.elementVector.length) default))
          (bracketGet p.idToIndex itemId).1 }

/-- The scan shared by the query drivers: walk the element vector in
storage order; for every element the predicate accepts, append its
unpacked id to the writes performed into returnArray, and return as soon
as the write count reaches returnArrayMaxSize (the check runs after the
write, which matters when the capacity is zero or negative).  The returned
list collects, in order, the ids written to returnArray[0..]; its length
is the int the C++ function returns. -/
def queryScan (pred : AABB → Bool) (returnArrayMaxSize : Int) :
    List AABB → List Int → List Int
  | [], acc => acc
  | a :: rest, acc =>
    if pred a then
      if returnArrayMaxSize ≤ ((acc ++ [IdFromAABB a]).length : Int) then
        acc ++ [IdFromAABB a]
      else
        queryScan pred returnArrayMaxSize rest (acc ++ [IdFromAABB a])
    else
      queryScan pred returnArrayMaxSize rest acc

/-- int SpatialPartitioner::IntersectedBy(Vector3, Vector3, int*, int):
build the transient query AABB with sentinel id -1 and scan with the
vectorized intersects predicate. -/
def SpatialPartitioner.IntersectedBy (p : SpatialPartitioner)
    (testCenter testExtents : Vector3) (returnArrayMaxSize : Int) : List Int :=
  queryScan (fun it => intersects (mkAABB (-1) testCenter testExtents) it)
    returnArrayMaxSize p.elementVector []

/-- int SpatialPartitioner::IntersectedByOrig(Vector3, Vector3, int*, int):
same scan with the scalar reference predicate. -/
def SpatialPartitioner.IntersectedByOrig (p : SpatialPartitioner)
    (testCenter testExtents : Vector3) (returnArrayMaxSize : Int) : List Int :=
  queryScan (fun it => intersectsOrig (mkAABB (-1) testCenter testExtents) it)
    returnArrayMaxSize p.elementVector []

/-- int SpatialPartitioner::ContainedBy(Vector3, Vector3, int*, int): same
scan with the contains predicate (query box as the container). -/
def SpatialPartitioner.ContainedBy (p : SpatialPartitioner)
    (testCenter testExtents : Vector3) (returnArrayMaxSize : Int) : List Int :=
  queryScan (fun it => contains (mkAABB (-1) testCenter testExtents) it)
    returnArrayMaxSize p.elementVector []

/-- bool SpatialPartitioner::HasItem(int itemHandle):
idToIndex.find(itemHandle) != idToIndex.end(). -/
def SpatialPartitioner.HasItem (p : SpatialPartitioner) (itemHandle : Int) :
    Bool :=
  (mapFind p.idToIndex itemHandle).isSome

/-- Claim C10: RemoveItem on an empty store is a no-op for every id: the
guard elementVector.size() > 1 fails and the clear branch clears two
already-empty containers. -/
theorem removeItem_on_empty (p : SpatialPartitioner) (itemId : Int)
    (h1 : p.elementVector = []) (h2 : p.idToIndex = []) :
    p.RemoveItem itemId = p := by
  obtain ⟨ev, m⟩ := p
  cases h1
  cases h2
  rfl

/-- Witness for C10 at the freshly constructed store and id 7. -/
theorem removeItem_on_empty_witness :
    emptyPartitioner.RemoveItem 7 = emptyPartitioner :=
  removeItem_on_empty emptyPartitioner 7 rfl rfl

/-- Result and post-state of an IntersectedBy call: the method body only
reads elementVector (begin/end iteration) and idToIndex is untouched; the
only writes go to the caller-owned returnArray, so the store after the
call rebuilds from the same member values. -/
def SpatialPartitioner.IntersectedByRun (p : SpatialPartitioner)
    (testCenter testExtents : Vector3) (returnArrayMaxSize : Int) :
    List Int × SpatialPartitioner :=
  (p.IntersectedBy testCenter testExtents returnArrayMaxSize,
    { elementVector := p.elementVector, idToIndex := p.idToIndex })

/-- Result and post-state of an IntersectedByOrig call; member accesses as
in IntersectedByRun. -/
def SpatialPartitioner.IntersectedByOrigRun (p : SpatialPartitioner)
    (testCenter testExtents : Vector3) (returnArrayMaxSize : Int) :
    List Int × SpatialPartitioner :=
  (p.IntersectedByOrig testCenter testExtents returnArrayMaxSize,
    { elementVector := p.elementVector, idToIndex := p.idToIndex })

/-- Result and post-state of a ContainedBy call; member accesses as in
IntersectedByRun. -/
def SpatialPartitioner.ContainedByRun (p : SpatialPartitioner)
    (testCenter testExtents : Vector3) (returnArrayMaxSize : Int) :
    List Int × SpatialPartitioner :=
  (p.ContainedBy testCenter testExtents returnArrayMaxSize,
    { elementVector := p.elementVector, idToIndex := p.idToIndex })

/-- Result and post-state of a HasItem call: the body is a single
idToIndex.find, a non-mutating lookup. -/
def SpatialPartitioner.HasItemRun (p : SpatialPartitioner)
    (itemHandle : Int) : Bool × SpatialPartitioner :=
  (p.HasItem itemHandle, { elementVector := p.elementVector, idToIndex := p.idToIndex })

/-- Claim C9: the four query operations leave the store (element sequence
and id map) exactly as it was, for every store state and all arguments. -/
theorem queries_preserve_store (p : SpatialPartitioner)
    (testCenter testExtents : Vector3) (returnArrayMaxSize : Int)
    (itemHandle : Int) :
    (p.IntersectedByRun testCenter testExtents returnArrayMaxSize).2 = p ∧
      (p.IntersectedByOrigRun testCenter testExtents returnArrayMaxSize).2 = p ∧
      (p.ContainedByRun testCenter testExtents returnArrayMaxSize).2 = p ∧
      (p.HasItemRun itemHandle).2 = p := by
  obtain ⟨ev, m⟩ := p
  exact ⟨rfl, rfl, rfl, rfl⟩

/-- The one-element store used for the C2 failing input: id 1 with the unit
cube around the origin. -/
def oneBoxStore : SpatialPartitioner :=
  emptyPartitioner.AddItem 1 ⟨0, 0, 0⟩ ⟨1, 1, 1⟩

theorem boxOne_eval :
    mkAABB 1 ⟨0, 0, 0⟩ ⟨1, 1, 1⟩ = ⟨-1, -1, -1, 1, 1, 1, 1, 1⟩ := by
  unfold mkAABB
  congr 1 <;> first | norm_num | decide

theorem oneBoxStore_eval :
    oneBoxStore = ⟨[⟨-1, -1, -1, 1, 1, 1, 1, 1⟩], [(1, 0)]⟩ := by
  unfold oneBoxStore SpatialPartitioner.AddItem emptyPartitioner
  rw [boxOne_eval]
  rfl

theorem queryBox0_eval :
    mkAABB (-1) ⟨0, 0, 0⟩ ⟨1, 1, 1⟩
      = ⟨-1, -1, -1, 4294967295, 1, 1, 1, 4294967295⟩ := by
  unfold mkAABB
  congr 1 <;> first | norm_num | decide

/-- Claim C2, code bug: with capacity 0 and one stored box that intersects
the query box, IntersectedBy writes one id into the zero-capacity buffer
(an out-of-bounds write in the C++) and returns 1, because the capacity
check runs only after a write; the claim (and the spec's buffer contract)
says it must write nothing and return 0. -/
theorem intersectedBy_zero_capacity_eval :
    oneBoxStore.IntersectedBy ⟨0, 0, 0⟩ ⟨1, 1, 1⟩ 0 = [1] := by
  unfold SpatialPartitioner.IntersectedBy
  rw [oneBoxStore_eval]
  simp only [queryBox0_eval]
  decide

theorem idFromAABB_mk_aux (id : Int) (h : goodId id = true)
    (center extents : Vector3) : IdFromAABB (mkAABB id center extents) = id := by
  unfold IdFromAABB mkAABB
  simp only
  rw [addPosZero_of_goodId id h]
  unfold goodId at h
  simp only [Bool.and_eq_true, decide_eq_true_eq] at h
  exact idOfBits_bitsOfId id (le_of_lt h.1.1) h.1.2

theorem mapFind_cons_self (k : Int) (v : Nat) (rest : List (Int × Nat)) :
    mapFind ((k, v) :: rest) k = some v := by
  simp [mapFind]

theorem mapFind_cons_ne (k1 k : Int) (v : Nat) (rest : List (Int × Nat))
    (h : k1 ≠ k) : mapFind ((k1, v) :: rest) k = mapFind rest k := by
  simp [mapFind, h]

theorem mapSet_cons_self (k : Int) (v1 v : Nat) (rest : List (Int × Nat)) :
    mapSet ((k, v1) :: rest) k v = (k, v) :: rest := by
  simp [mapSet]

theorem mapSet_cons_ne (k1 k : Int) (v1 v : Nat) (rest : List (Int × Nat))
    (h : k1 ≠ k) : mapSet ((k1, v1) :: rest) k v = (k1, v1) :: mapSet rest k v := by
  simp [mapSet, h]

theorem mapFind_mapSet_self (m : List (Int × Nat)) (k : Int) (v : Nat) :
    mapFind (mapSet m k v) k = some v := by
  induction m with
  | nil => simp [mapSet, mapFind]
  | cons e rest ih =>
    obtain ⟨k1, v1⟩ := e
    by_cases h : k1 = k
    · subst h
      simp [mapSet, mapFind]
    · simp [mapSet, mapFind, h, ih]

theorem mapFind_mapSet_ne (m : List (Int × Nat)) (k k2 : Int) (v : Nat)
    (h : k2 ≠ k) : mapFind (mapSet m k v) k2 = mapFind m k2 := by
  induction m with
  | nil => simp [mapSet, mapFind, Ne.symm h]
  | cons e rest ih =>
    obtain ⟨k1, v1⟩ := e
    by_cases h1 : k1 = k
    · subst h1
      simp [mapSet, mapFind, Ne.symm h]
    · by_cases h2 : k1 = k2
      · subst h2
        simp [mapSet, mapFind, h1]
      · simp [mapSet, mapFind, h1, h2, ih]

theorem mapFind_mapErase_self (m : List (Int × Nat)) (k : Int) :
    mapFind (mapErase m k) k = none := by
  induction m with
  | nil => simp [mapErase, mapFind]
  | cons e rest ih =>
    obtain ⟨k1, v1⟩ := e
    simp only [mapErase, List.filter_cons] at ih ⊢
    by_cases h : k1 = k
    · subst h
      simpa using ih
    · simpa [h, mapFind] using ih

theorem mapFind_mapErase_ne (m : List (Int × Nat)) (k k2 : Int) (h : k2 ≠ k) :
    mapFind (mapErase m k) k2 = mapFind m k2 := by
  induction m with
  | nil => simp [mapErase, mapFind]
  | cons e rest ih =>
    obtain ⟨k1, v1⟩ := e
    simp only [mapErase, List.filter_cons] at ih ⊢
    by_cases h1 : k1 = k
    · subst h1
      simp only [mapFind]
      simpa [Ne.symm h] using ih
    · by_cases h2 : k1 = k2
      · subst h2
        simp [h1, mapFind]
      · simp [h1, h2, mapFind, ih]

theorem mem_mapErase (m : List (Int × Nat)) (k : Int) (e : Int × Nat) :
    e ∈ mapErase m k ↔ e ∈ m ∧ e.1 ≠ k := by
  simp [mapErase, List.mem_filter]

theorem mapFind_eq_none_iff (m : List (Int × Nat)) (k : Int) :
    mapFind m k = none ↔ k ∉ m.map Prod.fst := by
  induction m with
  | nil => simp [mapFind]
  | cons e rest ih =>
    obtain ⟨k1, v1⟩ := e
    by_cases h : k1 = k
    · subst h
      simp [mapFind]
    · simp [mapFind, h, ih, Ne.symm h]

theorem mem_of_mapFind_eq_some (m : List (Int × Nat)) (k : Int) (v : Nat)
    (h : mapFind m k = some v) : (k, v) ∈ m := by
  induction m with
  | nil => simp [mapFind] at h
  | cons e rest ih =>
    obtain ⟨k1, v1⟩ := e
    by_cases h1 : k1 = k
    · subst h1
      rw [mapFind_cons_self, Option.some.injEq] at h
      subst h
      exact List.mem_cons_self _ _
    · rw [mapFind_cons_ne k1 k v1 rest h1] at h
      exact List.mem_cons_of_mem _ (ih h)

theorem mapFind_eq_some_of_mem (m : List (Int × Nat))
    (hnd : (m.map Prod.fst).Nodup) (e : Int × Nat) (he : e ∈ m) :
    mapFind m e.1 = some e.2 := by
  induction m with
  | nil => simp at he
  | cons e1 rest ih =>
    obtain ⟨k1, v1⟩ := e1
    simp only [List.map_cons, List.nodup_cons] at hnd
    rcases List.mem_cons.1 he with h | h
    · subst h
      simp [mapFind]
    · have hne : k1 ≠ e.1 := by
        intro hh
        exact hnd.1 (hh ▸ List.mem_map_of_mem Prod.fst h)
      simp [mapFind, hne, ih hnd.2 h]

theorem keys_mapSet (m : List (Int × Nat)) (k : Int) (v : Nat) :
    (mapSet m k v).map Prod.fst =
      if mapFind m k = none then m.map Prod.fst ++ [k] else m.map Prod.fst := by
  induction m with
  | nil => simp [mapSet, mapFind]
  | cons e rest ih =>
    obtain ⟨k1, v1⟩ := e
    by_cases h : k1 = k
    · subst h
      simp [mapSet, mapFind]
    · simp only [mapSet, if_neg h, List.map_cons, mapFind, ih]
      by_cases h2 : mapFind rest k = none <;> simp [h2, h]

theorem mem_mapSet_iff (m : List (Int × Nat)) (k : Int) (v : Nat)
    (hnd : (m.map Prod.fst).Nodup) (e : Int × Nat) :
    e ∈ mapSet m k v ↔ e = (k, v) ∨ (e ∈ m ∧ e.1 ≠ k) := by
  induction m with
  | nil => simp [mapSet]
  | cons e1 rest ih =>
    obtain ⟨k1, v1⟩ := e1
    simp only [List.map_cons, List.nodup_cons] at hnd
    by_cases h : k1 = k
    · subst h
      rw [mapSet_cons_self]
      simp only [List.mem_cons]
      constructor
      · rintro (h2 | h2)
        · exact Or.inl h2
        · refine Or.inr ⟨Or.inr h2, ?_⟩
          intro hh
          exact hnd.1 (hh ▸ List.mem_map_of_mem Prod.fst h2)
      · rintro (h2 | ⟨h2 | h2, h3⟩)
        · exact Or.inl h2
        · exact absurd (congrArg Prod.fst h2) h3
        · exact Or.inr h2
    · rw [mapSet_cons_ne k1 k v1 v rest h]
      simp only [List.mem_cons, ih hnd.2]
      constructor
      · rintro (h2 | h2 | ⟨h2, h3⟩)
        · exact Or.inr ⟨Or.inl h2, h2 ▸ h⟩
        · exact Or.inl h2
        · exact Or.inr ⟨Or.inr h2, h3⟩
      · rintro (h2 | ⟨h2 | h2, h3⟩)
        · exact Or.inr (Or.inl h2)
        · exact Or.inl h2
        · exact Or.inr (Or.inr ⟨h2, h3⟩)

theorem keys_mapErase_nodup (m : List (Int × Nat)) (k : Int)
    (hnd : (m.map Prod.fst).Nodup) : ((mapErase m k).map Prod.fst).Nodup :=
  hnd.sublist ((List.filter_sublist m).map Prod.fst)

theorem getD_append_left (l1 l2 : List AABB) (i : Nat) (d : AABB)
    (h : i < l1.length) : (l1 ++ l2).getD i d = l1.getD i d := by
  simp [List.getD_eq_getElem?_getD, List.getElem?_append_left h]

theorem getD_concat_self (l : List AABB) (a d : AABB) :
    (l ++ [a]).getD l.length d = a := by
  simp [List.getD_eq_getElem?_getD, List.getElem?_concat_length]

theorem getD_set_self (l : List AABB) (i : Nat) (a d : AABB)
    (h : i < l.length) : (l.set i a).getD i d = a := by
  simp [List.getD_eq_getElem?_getD, List.getElem?_set_self h]

theorem getD_set_ne (l : List AABB) (i j : Nat) (a d : AABB) (h : i ≠ j) :
    (l.set i a).getD j d = l.getD j d := by
  simp [List.getD_eq_getElem?_getD, List.getElem?_set_ne h]

theorem getD_dropLast (l : List AABB) (j : Nat) (d : AABB)
    (h : j < l.length - 1) : l.dropLast.getD j d = l.getD j d := by
  rw [List.dropLast_eq_take]
  simp [List.getD_eq_getElem?_getD, List.getElem?_take_of_lt h]

theorem getD_mem (l : List AABB) (i : Nat) (d : AABB) (h : i < l.length) :
    l.getD i d ∈ l := by
  rw [List.getD_eq_getElem?_getD, List.getElem?_eq_getElem h]
  exact List.getElem_mem h

/-- Claim C4's store invariants:
(a) every map entry addresses an in-range slot whose packed id equals the
entry's key; (b) for every slot, looking the slot's packed id up in the map
finds exactly that slot (with the key uniqueness recorded below this is
"exactly one mapping entry points at the slot"); (c) is the combination of
the in-range indices from (a) and the density that the sequence
representation builds in.  Key uniqueness of the association list is an
unordered_map structural fact the operations must preserve. -/
def Invariants (p : SpatialPartitioner) : Prop :=
  (∀ e ∈ p.idToIndex,
      e.2 < p.elementVector.length ∧
        IdFromAABB (p.elementVector.getD e.2 default) = e.1) ∧
    (∀ j, j < p.elementVector.length →
      mapFind p.idToIndex (IdFromAABB (p.elementVector.getD j default)) = some j) ∧
    (p.idToIndex.map Prod.fst).Nodup

/-- Every stored element's packed lane is canonical: a 32-bit pattern that
is a fixed point of the +0.0 addition.  Every lane the constructor writes
is of this shape, and swap-removal only moves stored elements around. -/
def GoodSlots (p : SpatialPartitioner) : Prop :=
  ∀ a ∈ p.elementVector, a.maxw < 2 ^ 32 ∧ addPosZero a.maxw = a.maxw

/-- The inductive well-formedness the mutation operations preserve. -/
def WF (p : SpatialPartitioner) : Prop := Invariants p ∧ GoodSlots p

/-- One mutation from the operation sequences of claim C4. -/
inductive StoreOp where
  | add (itemId : Int) (center extents : Vector3)
  | update (itemId : Int) (center extents : Vector3)
  | remove (itemId : Int)
deriving DecidableEq

/-- Dispatch one mutation to the store. -/
def applyOp (p : SpatialPartitioner) : StoreOp → SpatialPartitioner
  | .add i c e => p.AddItem i c e
  | .update i c e => p.UpdateItem i c e
  | .remove i => p.RemoveItem i

/-- Legality of one mutation, as claim C4 words it, amended: AddItem only
with ids not already present (and surviving the packed-lane round trip),
UpdateItem and RemoveItem only with ids already present. -/
def legalOp (p : SpatialPartitioner) : StoreOp → Bool
  | .add i _ _ => !(p.HasItem i) && goodId i
  | .update i _ _ => p.HasItem i
  | .remove i => p.HasItem i

/-- Legality of one mutation exactly as claim C4 words it: AddItem with ids
not already present, UpdateItem and RemoveItem with ids already present. -/
def legalOpOrig (p : SpatialPartitioner) : StoreOp → Bool
  | .add i _ _ => !(p.HasItem i)
  | .update i _ _ => p.HasItem i
  | .remove i => p.HasItem i

/-- A mutation sequence in which every step is legal (amended sense) in the
state it executes in. -/
def legalSeq : SpatialPartitioner → List StoreOp → Bool
  | _, [] => true
  | p, op :: rest => legalOp p op && legalSeq (applyOp p op) rest

/-- A mutation sequence in which every step is legal in the claim's
original sense. -/
def legalSeqOrig : SpatialPartitioner → List StoreOp → Bool
  | _, [] => true
  | p, op :: rest => legalOpOrig p op && legalSeqOrig (applyOp p op) rest

/-- Run a mutation sequence from a starting state. -/
def applyOps (p : SpatialPartitioner) (ops : List StoreOp) : SpatialPartitioner :=
  ops.foldl applyOp p

theorem wf_empty : WF emptyPartitioner := by
  refine ⟨⟨?_, ?_, ?_⟩, ?_⟩
  · intro e he
    simp [emptyPartitioner] at he
  · intro j hj
    simp [emptyPartitioner] at hj
  · simp [emptyPartitioner]
  · intro a ha
    simp [emptyPartitioner] at ha

theorem wf_addItem (p : SpatialPartitioner) (id : Int) (c e : Vector3)
    (hWF : WF p) (hfresh : mapFind p.idToIndex id = none)
    (hgood : goodId id = true) : WF (p.AddItem id c e) := by
  obtain ⟨⟨ha, hb, hnd⟩, hg⟩ := hWF
  have hbox : IdFromAABB (mkAABB id c e) = id := idFromAABB_mk_aux id hgood c e
  have hboxw : (mkAABB id c e).maxw = bitsOfId id :=
    addPosZero_of_goodId id hgood
  refine ⟨⟨?_, ?_, ?_⟩, ?_⟩
  · intro e2 he2
    simp only [SpatialPartitioner.AddItem] at he2 ⊢
    rcases (mem_mapSet_iff p.idToIndex id p.elementVector.length hnd e2).1 he2
      with h2 | ⟨h2, h3⟩
    · subst h2
      refine ⟨by simp, ?_⟩
      rw [getD_concat_self]
      exact hbox
    · obtain ⟨hlt, hid⟩ := ha e2 h2
      refine ⟨by simp; omega, ?_⟩
      rw [getD_append_left _ _ _ _ hlt]
      exact hid
  · intro j hj
    simp only [SpatialPartitioner.AddItem, List.length_append, List.length_cons,
      List.length_nil] at hj ⊢
    rcases Nat.lt_succ_iff_lt_or_eq.1 (by omega : j < p.elementVector.length + 1)
      with h2 | h2
    · rw [getD_append_left _ _ _ _ h2]
      have hk := hb j h2
      have hne : IdFromAABB (p.elementVector.getD j default) ≠ id := by
        intro hh
        rw [hh, hfresh] at hk
        cases hk
      rw [mapFind_mapSet_ne _ _ _ _ hne]
      exact hk
    · subst h2
      rw [getD_concat_self, hbox, mapFind_mapSet_self]
  · simp only [SpatialPartitioner.AddItem]
    rw [keys_mapSet, if_pos hfresh]
    have hnotin : id ∉ p.idToIndex.map Prod.fst :=
      (mapFind_eq_none_iff p.idToIndex id).1 hfresh
    simp [List.nodup_append, hnd, hnotin]
  · intro a2 ha2
    simp only [SpatialPartitioner.AddItem] at ha2
    rcases List.mem_append.1 ha2 with h2 | h2
    · exact hg a2 h2
    · rcases List.mem_singleton.1 h2 with rfl
      rw [hboxw]
      exact ⟨bitsOfId_lt id, addPosZero_of_goodId id hgood⟩

theorem bracketGet_present (m : List (Int × Nat)) (k : Int) (v : Nat)
    (h : mapFind m k = some v) : bracketGet m k = (v, m) := by
  unfold bracketGet
  rw [h]

theorem wf_updateItem (p : SpatialPartitioner) (id : Int) (c e : Vector3)
    (i : Nat) (hWF : WF p) (hpres : mapFind p.idToIndex id = some i) :
    WF (p.UpdateItem id c e) := by
  obtain ⟨⟨ha, hb, hnd⟩, hg⟩ := hWF
  have hmem : (id, i) ∈ p.idToIndex := mem_of_mapFind_eq_some _ _ _ hpres
  obtain ⟨hi, hidslot⟩ := ha (id, i) hmem
  simp only at hi hidslot
  have hslotmem : p.elementVector.getD i default ∈ p.elementVector :=
    getD_mem _ _ _ hi
  obtain ⟨hw1, hw2⟩ := hg _ hslotmem
  have hbw : (mkAABB id c e).maxw = (p.elementVector.getD i default).maxw := by
    show addPosZero (bitsOfId id) = _
    have hbits : bitsOfId id = (p.elementVector.getD i default).maxw := by
      rw [← hidslot]
      unfold IdFromAABB
      exact bitsOfId_idOfBits _ hw1
    rw [hbits, hw2]
  have hbox : IdFromAABB (mkAABB id c e) = id := by
    unfold IdFromAABB at hidslot ⊢
    rw [hbw]
    exact hidslot
  have hbg : bracketGet p.idToIndex id = (i, p.idToIndex) :=
    bracketGet_present _ _ _ hpres
  refine ⟨⟨?_, ?_, ?_⟩, ?_⟩
  · intro e2 he2
    simp only [SpatialPartitioner.UpdateItem, hbg] at he2 ⊢
    obtain ⟨hlt, hid2⟩ := ha e2 he2
    refine ⟨by simpa using hlt, ?_⟩
    by_cases h2 : i = e2.2
    · subst h2
      rw [getD_set_self _ _ _ _ hi, hbox, ← hidslot]
      exact hid2
    · rw [getD_set_ne _ _ _ _ _ h2]
      exact hid2
  · intro j hj
    simp only [SpatialPartitioner.UpdateItem, hbg, List.length_set] at hj ⊢
    by_cases h2 : i = j
    · subst h2
      rw [getD_set_self _ _ _ _ hi, hbox]
      exact hpres
    · rw [getD_set_ne _ _ _ _ _ h2]
      exact hb j hj
  · simp only [SpatialPartitioner.UpdateItem, hbg]
    exact hnd
  · intro a2 ha2
    simp only [SpatialPartitioner.UpdateItem, hbg] at ha2
    rcases List.mem_or_eq_of_mem_set ha2 with h2 | h2
    · exact hg a2 h2
    · subst h2
      rw [hbw]
      exact ⟨hw1, hw2⟩

theorem removeItem_eq_clear (p : SpatialPartitioner) (id : Int)
    (hlen : ¬ 1 < p.elementVector.length) :
    p.RemoveItem id = ⟨[], []⟩ := by
  unfold SpatialPartitioner.RemoveItem
  rw [if_neg hlen]

theorem removeItem_eq_pop (p : SpatialPartitioner) (id : Int) (i : Nat)
    (hpres : mapFind p.idToIndex id = some i)
    (hlen : 1 < p.elementVector.length)
    (hlast : i = p.elementVector.length - 1) :
    p.RemoveItem id = ⟨p.elementVector.dropLast, mapErase p.idToIndex id⟩ := by
  unfold SpatialPartitioner.RemoveItem
  rw [if_pos hlen, bracketGet_present _ _ _ hpres]
  simp only
  rw [if_pos hlast]

theorem removeItem_eq_swap (p : SpatialPartitioner) (id : Int) (i : Nat)
    (hpres : mapFind p.idToIndex id = some i)
    (hlen : 1 < p.elementVector.length)
    (hlast : i ≠ p.elementVector.length - 1) :
    p.RemoveItem id =
      ⟨(p.elementVector.set i
          (p.elementVector.getD (p.elementVector.length - 1) default)).dropLast,
        mapSet (mapErase p.idToIndex id)
          (IdFromAABB (p.elementVector.getD (p.elementVector.length - 1) default))
          i⟩ := by
  unfold SpatialPartitioner.RemoveItem
  rw [if_pos hlen, bracketGet_present _ _ _ hpres]
  simp only
  rw [if_neg hlast]

theorem wf_removeItem (p : SpatialPartitioner) (id : Int) (i : Nat)
    (hWF : WF p) (hpres : mapFind p.idToIndex id = some i) :
    WF (p.RemoveItem id) := by
  obtain ⟨⟨ha, hb, hnd⟩, hg⟩ := hWF
  have hmem : (id, i) ∈ p.idToIndex := mem_of_mapFind_eq_some _ _ _ hpres
  obtain ⟨hi, hidslot⟩ := ha (id, i) hmem
  simp only at hi hidslot
  by_cases hlen : 1 < p.elementVector.length
  · by_cases hlast : i = p.elementVector.length - 1
    · rw [removeItem_eq_pop p id i hpres hlen hlast]
      refine ⟨⟨?_, ?_, ?_⟩, ?_⟩
      · intro e2 he2
        obtain ⟨he2m, he2ne⟩ := (mem_mapErase _ _ _).1 he2
        obtain ⟨hlt, hid2⟩ := ha e2 he2m
        have hne2 : e2.2 ≠ p.elementVector.length - 1 := by
          intro hh
          apply he2ne
          rw [← hid2, hh, ← hlast]
          exact hidslot
        have hlt2 : e2.2 < p.elementVector.length - 1 := by omega
        refine ⟨by simpa [List.length_dropLast] using hlt2, ?_⟩
        rw [getD_dropLast _ _ _ hlt2]
        exact hid2
      · intro j hj
        simp only [List.length_dropLast] at hj
        rw [getD_dropLast _ _ _ hj]
        have hk := hb j (by omega)
        have hkne : IdFromAABB (p.elementVector.getD j default) ≠ id := by
          intro hh
          rw [hh, hpres] at hk
          have hij : i = j := by injection hk
          omega
        rw [mapFind_mapErase_ne _ _ _ hkne]
        exact hk
      · exact keys_mapErase_nodup _ _ hnd
      · intro a2 ha2
        exact hg a2 ((List.dropLast_sublist _).subset ha2)
    · have hilt : i < p.elementVector.length - 1 := by omega
      rw [removeItem_eq_swap p id i hpres hlen hlast]
      have hlastfind := hb (p.elementVector.length - 1) (by omega)
      set lastA := p.elementVector.getD (p.elementVector.length - 1) default
        with hlastA
      set lastId := IdFromAABB lastA with hlastId
      have hlastmem : lastA ∈ p.elementVector := getD_mem _ _ _ (by omega)
      have hlastne : lastId ≠ id := by
        intro hh
        rw [hh, hpres] at hlastfind
        have hij : i = p.elementVector.length - 1 := by injection hlastfind
        omega
      have hlen2 : ((p.elementVector.set i lastA).dropLast).length
          = p.elementVector.length - 1 := by
        simp [List.length_dropLast, List.length_set]
      have hslotAt : ∀ j, j < p.elementVector.length - 1 →
          ((p.elementVector.set i lastA).dropLast).getD j default =
            (if j = i then lastA else p.elementVector.getD j default) := by
        intro j hj
        rw [getD_dropLast _ _ _ (by simpa [List.length_set] using hj)]
        by_cases h2 : j = i
        · subst h2
          rw [if_pos rfl]
          exact getD_set_self _ _ _ _ (by omega)
        · rw [if_neg h2]
          exact getD_set_ne _ _ _ _ _ (fun hh => h2 hh.symm)
      have hndE := keys_mapErase_nodup p.idToIndex id hnd
      have hfindE : mapFind (mapErase p.idToIndex id) lastId = some
          (p.elementVector.length - 1) := by
        rw [mapFind_mapErase_ne _ _ _ hlastne]
        exact hlastfind
      refine ⟨⟨?_, ?_, ?_⟩, ?_⟩
      · intro e2 he2
        rcases (mem_mapSet_iff _ _ _ hndE e2).1 he2 with h2 | ⟨h2, h3⟩
        · subst h2
          refine ⟨?_, ?_⟩
          · simp only
            rw [hlen2]
            exact hilt
          · simp only
            rw [hslotAt i hilt, if_pos rfl]
        · obtain ⟨h2m, h2ne⟩ := (mem_mapErase _ _ _).1 h2
          obtain ⟨hlt, hid2⟩ := ha e2 h2m
          have hne1 : e2.2 ≠ p.elementVector.length - 1 := by
            intro hh
            apply h3
            rw [← hid2, hh]
          have hne2 : e2.2 ≠ i := by
            intro hh
            apply h2ne
            rw [← hid2, hh]
            exact hidslot
          have hlt2 : e2.2 < p.elementVector.length - 1 := by omega
          refine ⟨by rw [hlen2]; exact hlt2, ?_⟩
          rw [hslotAt e2.2 hlt2, if_neg hne2]
          exact hid2
      · intro j hj
        rw [hlen2] at hj
        rw [hslotAt j hj]
        by_cases h2 : j = i
        · subst h2
          rw [if_pos rfl, ← hlastId]
          rw [mapFind_mapSet_self]
        · rw [if_neg h2]
          have hk := hb j (by omega)
          have hkni : IdFromAABB (p.elementVector.getD j default) ≠ id := by
            intro hh
            rw [hh, hpres] at hk
            have hij : i = j := by injection hk
            exact h2 hij.symm
          have hknl : IdFromAABB (p.elementVector.getD j default) ≠ lastId := by
            intro hh
            rw [hh, hlastfind] at hk
            have hij : p.elementVector.length - 1 = j := by injection hk
            omega
          rw [mapFind_mapSet_ne _ _ _ _ hknl, mapFind_mapErase_ne _ _ _ hkni]
          exact hk
      · rw [keys_mapSet, if_neg (by rw [hfindE]; exact fun hh => by cases hh)]
        exact hndE
      · intro a2 ha2
        have ha3 : a2 ∈ p.elementVector.set i lastA :=
          (List.dropLast_sublist _).subset ha2
        rcases List.mem_or_eq_of_mem_set ha3 with h2 | h2
        · exact hg a2 h2
        · subst h2
          exact hg lastA hlastmem
  · rw [removeItem_eq_clear p id hlen]
    refine ⟨⟨?_, ?_, ?_⟩, ?_⟩
    · intro e2 he2
      simp at he2
    · intro j hj
      simp at hj
    · simp
    · intro a2 ha2
      simp at ha2

theorem hasItem_exists (p : SpatialPartitioner) (k : Int)
    (h : p.HasItem k = true) : ∃ v, mapFind p.idToIndex k = some v := by
  unfold SpatialPartitioner.HasItem at h
  exact Option.isSome_iff_exists.1 h

theorem wf_applyOp (p : SpatialPartitioner) (op : StoreOp) (hWF : WF p)
    (hleg : legalOp p op = true) : WF (applyOp p op) := by
  cases op with
  | add i c e =>
    simp only [legalOp, Bool.and_eq_true, Bool.not_eq_true'] at hleg
    have hfresh : mapFind p.idToIndex i = none := by
      have h2 := hleg.1
      unfold SpatialPartitioner.HasItem at h2
      exact Option.not_isSome_iff_eq_none.1 (by simp [h2])
    exact wf_addItem p i c e hWF hfresh hleg.2
  | update i c e =>
    obtain ⟨v, hv⟩ := hasItem_exists p i hleg
    exact wf_updateItem p i c e v hWF hv
  | remove i =>
    obtain ⟨v, hv⟩ := hasItem_exists p i hleg
    exact wf_removeItem p i v hWF hv

theorem wf_applyOps (ops : List StoreOp) : ∀ p : SpatialPartitioner,
    WF p → legalSeq p ops = true → WF (applyOps p ops) := by
  induction ops with
  | nil =>
    intro p h _
    simpa [applyOps] using h
  | cons op rest ih =>
    intro p h hleg
    simp only [legalSeq, Bool.and_eq_true] at hleg
    simpa [applyOps, List.foldl] using
      ih (applyOp p op) (wf_applyOp p op h hleg.1) hleg.2

/-- Claim C4, amended (AddItem ids are additionally required to survive the
packed-lane round trip, i.e. to be neither INT_MIN nor a signalling-NaN
pattern): starting from the empty store, after any sequence of AddItem
calls with ids not already present, UpdateItem calls with ids already
present, and RemoveItem calls with ids already present, the store satisfies
invariants (a), (b) and (c). -/
theorem storeOps_keep_invariants (ops : List StoreOp)
    (h : legalSeq emptyPartitioner ops = true) :
    Invariants (applyOps emptyPartitioner ops) :=
  (wf_applyOps ops emptyPartitioner wf_empty h).1

/-- Witness for the amended C4 on a four-step mutation sequence. -/
theorem storeOps_keep_invariants_witness :
    Invariants (applyOps emptyPartitioner
      [.add 1 ⟨0, 0, 0⟩ ⟨1, 1, 1⟩, .add 2 ⟨3, 3, 3⟩ ⟨1, 1, 1⟩,
        .remove 1, .update 2 ⟨0, 0, 0⟩ ⟨2, 2, 2⟩]) :=
  storeOps_keep_invariants _ (by decide)

instance decidableInvariants (p : SpatialPartitioner) :
    Decidable (Invariants p) := by
  unfold Invariants
  infer_instance

/-- Claim C4, counterexample: under the claim's own legality (AddItem with
a fresh id), the single call AddItem(INT_MIN, ...) already violates the
invariants: the slot's packed id reads back as 0, not INT_MIN, so the
mapping entry for INT_MIN addresses a slot whose packed id differs from
the key. -/
theorem storeOps_invariants_cex :
    legalSeqOrig emptyPartitioner
        [.add (-2147483648) ⟨0, 0, 0⟩ ⟨0, 0, 0⟩] = true ∧
      ¬ Invariants (applyOps emptyPartitioner
        [.add (-2147483648) ⟨0, 0, 0⟩ ⟨0, 0, 0⟩]) := by
  constructor
  · decide
  · decide

instance decidableGoodSlots (p : SpatialPartitioner) :
    Decidable (GoodSlots p) := by
  unfold GoodSlots
  infer_instance

instance decidableWF (p : SpatialPartitioner) : Decidable (WF p) := by
  unfold WF
  infer_instance

/-- Claim C7, amended (restricted to ids present in the store; for absent
ids, and for any id on the empty store, the two paths differ): on a
well-formed store holding at most one entity, removing a present id through
the clear branch produces exactly the end state of the general
swap-with-last path. -/
theorem removeItem_small_eq_general (p : SpatialPartitioner) (id : Int)
    (i : Nat) (hWF : WF p) (hlen : p.elementVector.length ≤ 1)
    (hpres : mapFind p.idToIndex id = some i) :
    p.RemoveItem id = p.RemoveItemGeneral id := by
  obtain ⟨⟨ha, hb, hnd⟩, hg⟩ := hWF
  have hmem := mem_of_mapFind_eq_some _ _ _ hpres
  obtain ⟨hi, hidslot⟩ := ha (id, i) hmem
  simp only at hi hidslot
  have hlen1 : p.elementVector.length = 1 := by omega
  have hi0 : i = 0 := by omega
  subst hi0
  rw [removeItem_eq_clear p id (by omega)]
  unfold SpatialPartitioner.RemoveItemGeneral
  rw [bracketGet_present _ _ _ hpres]
  simp only
  rw [if_pos (by rw [hlen1]; decide)]
  have hev : p.elementVector.dropLast = [] := by
    rw [List.dropLast_eq_take, hlen1]
    simp
  have hm : mapErase p.idToIndex id = [] := by
    unfold mapErase
    rw [List.filter_eq_nil_iff]
    intro e2 he2
    obtain ⟨hlt, hid2⟩ := ha e2 he2
    have he0 : e2.1 = id := by
      have hz : e2.2 = 0 := by omega
      rw [← hid2, hz]
      exact hidslot
    simp [he0]
  rw [hev, hm]

/-- Witness for the amended C7: one-element store, its present id. -/
theorem removeItem_small_eq_general_witness :
    oneBoxStore.RemoveItem 1 = oneBoxStore.RemoveItemGeneral 1 :=
  removeItem_small_eq_general oneBoxStore 1 0
    (by rw [oneBoxStore_eval]; decide)
    (by rw [oneBoxStore_eval]; decide)
    (by rw [oneBoxStore_eval]; decide)

/-- Claim C7, counterexample: on a one-element store, removing an id that
is not present ends differently on the two paths: the clear branch empties
the map, while the general path first materializes a bogus entry for the
absent id through operator[], removes the wrong (only) element, and leaves
the surviving entity's mapping entry behind. -/
theorem removeItem_ne_general_cex :
    oneBoxStore.RemoveItem 2 ≠ oneBoxStore.RemoveItemGeneral 2 := by
  rw [oneBoxStore_eval]
  decide

theorem getD_cons_zero (a : AABB) (l : List AABB) (d : AABB) :
    (a :: l).getD 0 d = a := rfl

theorem getD_cons_succ (a : AABB) (l : List AABB) (j : Nat) (d : AABB) :
    (a :: l).getD (j + 1) d = l.getD j d := rfl

/-- When the capacity is at least the number of elements still to scan plus
the writes already performed, the early return never fires and the scan
returns every matching id in storage order. -/
theorem queryScan_eq_filter (pred : AABB → Bool) (cap : Int) :
    ∀ (l : List AABB) (acc : List Int),
      ((acc.length : Int) + l.length ≤ cap) →
      queryScan pred cap l acc = acc ++ (l.filter pred).map IdFromAABB := by
  intro l
  induction l with
  | nil =>
    intro acc h
    simp [queryScan]
  | cons a rest ih =>
    intro acc h
    simp only [List.length_cons] at h
    simp only [queryScan]
    by_cases hp : pred a
    · rw [if_pos hp]
      by_cases hcap : cap ≤ ((acc ++ [IdFromAABB a]).length : Int)
      · rw [if_pos hcap]
        have hrest : rest = [] := by
          rw [← List.length_eq_zero]
          simp only [List.length_append, List.length_cons, List.length_nil] at hcap
          push_cast at h hcap
          omega
        subst hrest
        simp [hp]
      · rw [if_neg hcap]
        rw [ih (acc ++ [IdFromAABB a])
          (by simp only [List.length_append, List.length_cons, List.length_nil]
              push_cast at h ⊢
              omega)]
        simp [hp, List.filter_cons]
    · rw [if_neg hp]
      rw [ih acc (by push_cast at h ⊢; omega)]
      simp [hp, List.filter_cons]

theorem intersectedBy_eq_filter (p : SpatialPartitioner) (c e : Vector3)
    (cap : Int) (hcap : (p.elementVector.length : Int) ≤ cap) :
    p.IntersectedBy c e cap =
      (p.elementVector.filter
        (fun it => intersects (mkAABB (-1) c e) it)).map IdFromAABB := by
  unfold SpatialPartitioner.IntersectedBy
  rw [queryScan_eq_filter _ _ _ _ (by simpa using hcap)]
  simp

theorem containedBy_eq_filter (p : SpatialPartitioner) (c e : Vector3)
    (cap : Int) (hcap : (p.elementVector.length : Int) ≤ cap) :
    p.ContainedBy c e cap =
      (p.elementVector.filter
        (fun it => contains (mkAABB (-1) c e) it)).map IdFromAABB := by
  unfold SpatialPartitioner.ContainedBy
  rw [queryScan_eq_filter _ _ _ _ (by simpa using hcap)]
  simp

/-- A scan predicate that exactly one slot satisfies is counted once. -/
theorem countP_eq_one_of_unique (pr : AABB → Bool) :
    ∀ (l : List AABB) (i : Nat), i < l.length →
      pr (l.getD i default) = true →
      (∀ j, j < l.length → pr (l.getD j default) = true → j = i) →
      l.countP pr = 1 := by
  intro l
  induction l with
  | nil =>
    intro i hi
    simp at hi
  | cons a rest ih =>
    intro i hi hpi huniq
    rcases i with _ | i2
    · have hpa : pr a = true := by
        rw [getD_cons_zero] at hpi
        exact hpi
      have hrest : rest.countP pr = 0 := by
        rw [List.countP_eq_zero]
        intro x hx hpx
        obtain ⟨j, hj, hjx⟩ := List.mem_iff_getElem.1 hx
        have hgd : rest.getD j default = x := by
          rw [List.getD_eq_getElem?_getD, List.getElem?_eq_getElem hj]
          exact hjx
        have hz := huniq (j + 1) (by simpa using hj)
          (by rw [getD_cons_succ, hgd]; exact hpx)
        omega
      rw [List.countP_cons, hrest]
      simp [hpa]
    · have hpa : pr a = false := by
        cases h2 : pr a
        · rfl
        · exact absurd (huniq 0 (by omega)
            (by rw [getD_cons_zero]; exact h2)) (by omega)
      rw [List.countP_cons]
      simp only [hpa, if_neg Bool.false_ne_true, Nat.add_zero]
      refine ih i2 (by simpa using hi) (by rwa [getD_cons_succ] at hpi) ?_
      intro j hj hpj
      have hz := huniq (j + 1) (by simpa using hj)
        (by rwa [getD_cons_succ])
      omega

/-- Claim C8: AddItem on an id already stored at slot i still appends: the
count grows by one, the map is redirected to the new last slot, the old
entity remains at slot i, and a query box intersecting both the old and
the new bounds (with enough capacity) reports the id exactly twice. -/
theorem addItem_duplicate_behavior (p : SpatialPartitioner) (id : Int)
    (i : Nat) (c e qc qe : Vector3) (cap : Int) (hWF : WF p)
    (hpres : mapFind p.idToIndex id = some i)
    (hq1 : intersects (mkAABB (-1) qc qe)
      (p.elementVector.getD i default) = true)
    (hq2 : intersects (mkAABB (-1) qc qe) (mkAABB id c e) = true)
    (hcap : (p.elementVector.length : Int) + 1 ≤ cap) :
    (p.AddItem id c e).elementVector.length = p.elementVector.length + 1 ∧
      mapFind (p.AddItem id c e).idToIndex id
        = some p.elementVector.length ∧
      (p.AddItem id c e).elementVector.getD i default
        = p.elementVector.getD i default ∧
      ((p.AddItem id c e).IntersectedBy qc qe cap).count id = 2 := by
  obtain ⟨⟨ha, hb, hnd⟩, hg⟩ := hWF
  have hmem := mem_of_mapFind_eq_some _ _ _ hpres
  obtain ⟨hi, hidslot⟩ := ha (id, i) hmem
  simp only at hi hidslot
  have hslotmem : p.elementVector.getD i default ∈ p.elementVector :=
    getD_mem _ _ _ hi
  obtain ⟨hw1, hw2⟩ := hg _ hslotmem
  have hbox : IdFromAABB (mkAABB id c e) = id := by
    unfold IdFromAABB at hidslot ⊢
    show idOfBits (addPosZero (bitsOfId id)) = id
    have hbits : bitsOfId id = (p.elementVector.getD i default).maxw := by
      rw [← hidslot]
      exact bitsOfId_idOfBits _ hw1
    rw [hbits, hw2]
    exact hidslot
  refine ⟨by simp [SpatialPartitioner.AddItem], ?_, ?_, ?_⟩
  · simp only [SpatialPartitioner.AddItem]
    exact mapFind_mapSet_self _ _ _
  · simp only [SpatialPartitioner.AddItem]
    exact getD_append_left _ _ _ _ hi
  · rw [intersectedBy_eq_filter _ _ _ _
      (by simp only [SpatialPartitioner.AddItem, List.length_append,
            List.length_cons, List.length_nil]
          push_cast
          push_cast at hcap
          omega)]
    rw [List.count_eq_countP, List.countP_map, List.countP_filter]
    simp only [SpatialPartitioner.AddItem]
    rw [List.countP_append]
    have hones : List.countP
        (fun a => (IdFromAABB a == id) &&
          intersects (mkAABB (-1) qc qe) a) [mkAABB id c e] = 1 := by
      simp [List.countP_cons, hbox, hq2]
    have hone : List.countP
        (fun a => (IdFromAABB a == id) &&
          intersects (mkAABB (-1) qc qe) a) p.elementVector = 1 := by
      refine countP_eq_one_of_unique _ p.elementVector i hi ?_ ?_
      · show ((IdFromAABB (p.elementVector.getD i default) == id) &&
          intersects (mkAABB (-1) qc qe)
            (p.elementVector.getD i default)) = true
        rw [hidslot, hq1]
        simp
      · intro j hj hpj
        simp only [Bool.and_eq_true, beq_iff_eq] at hpj
        have hk := hb j hj
        rw [hpj.1, hpres] at hk
        have hij : i = j := by injection hk
        omega
    simp only [Function.comp] at hones hone ⊢
    rw [hones, hone]

/-- Witness for C8: duplicate AddItem of id 1 on the one-box store, queried
with capacity 5. -/
theorem addItem_duplicate_behavior_witness :
    (oneBoxStore.AddItem 1 ⟨0, 0, 0⟩ ⟨1, 1, 1⟩).elementVector.length
        = oneBoxStore.elementVector.length + 1 ∧
      mapFind (oneBoxStore.AddItem 1 ⟨0, 0, 0⟩ ⟨1, 1, 1⟩).idToIndex 1
        = some oneBoxStore.elementVector.length ∧
      (oneBoxStore.AddItem 1 ⟨0, 0, 0⟩ ⟨1, 1, 1⟩).elementVector.getD 0 default
        = oneBoxStore.elementVector.getD 0 default ∧
      ((oneBoxStore.AddItem 1 ⟨0, 0, 0⟩ ⟨1, 1, 1⟩).IntersectedBy
        ⟨0, 0, 0⟩ ⟨1, 1, 1⟩ 5).count 1 = 2 :=
  addItem_duplicate_behavior oneBoxStore 1 0 ⟨0, 0, 0⟩ ⟨1, 1, 1⟩
    ⟨0, 0, 0⟩ ⟨1, 1, 1⟩ 5
    (by rw [oneBoxStore_eval]; decide)
    (by rw [oneBoxStore_eval]; decide)
    (by rw [oneBoxStore_eval, queryBox0_eval]; decide)
    (by rw [queryBox0_eval, boxOne_eval]; decide)
    (by rw [oneBoxStore_eval]; decide)

/-- The AABB stored for an id: the slot addressed by the id map. -/
def slotOf (p : SpatialPartitioner) (k : Int) : AABB :=
  p.elementVector.getD ((mapFind p.idToIndex k).getD 0) default

theorem removeItem_length (p : SpatialPartitioner) (id : Int) (i : Nat)
    (hWF : WF p) (hpres : mapFind p.idToIndex id = some i) :
    (p.RemoveItem id).elementVector.length = p.elementVector.length - 1 := by
  obtain ⟨⟨ha, hb, hnd⟩, hg⟩ := hWF
  have hmem := mem_of_mapFind_eq_some _ _ _ hpres
  obtain ⟨hi, hidslot⟩ := ha (id, i) hmem
  simp only at hi hidslot
  by_cases hlen : 1 < p.elementVector.length
  · by_cases hlast : i = p.elementVector.length - 1
    · rw [removeItem_eq_pop p id i hpres hlen hlast]
      simp [List.length_dropLast]
    · rw [removeItem_eq_swap p id i hpres hlen hlast]
      simp [List.length_dropLast, List.length_set]
  · rw [removeItem_eq_clear p id hlen]
    simp only [List.length_nil]
    omega

/-- What the id map looks up after a removal: the removed key is gone, and
on stores kept well formed the entry that pointed at the moved last slot is
redirected to the freed slot. -/
theorem removeItem_find (p : SpatialPartitioner) (id : Int) (i : Nat)
    (hWF : WF p) (hpres : mapFind p.idToIndex id = some i) (k : Int) :
    mapFind (p.RemoveItem id).idToIndex k =
      if k = id then none
      else (mapFind p.idToIndex k).map
        (fun j => if j = p.elementVector.length - 1 then i else j) := by
  obtain ⟨⟨ha, hb, hnd⟩, hg⟩ := hWF
  have hmem := mem_of_mapFind_eq_some _ _ _ hpres
  obtain ⟨hi, hidslot⟩ := ha (id, i) hmem
  simp only at hi hidslot
  by_cases hk : k = id
  · subst hk
    rw [if_pos rfl]
    by_cases hlen : 1 < p.elementVector.length
    · by_cases hlast : i = p.elementVector.length - 1
      · rw [removeItem_eq_pop p k i hpres hlen hlast]
        exact mapFind_mapErase_self _ _
      · rw [removeItem_eq_swap p k i hpres hlen hlast]
        have hlastfind := hb (p.elementVector.length - 1) (by omega)
        have hlastne :
            IdFromAABB (p.elementVector.getD (p.elementVector.length - 1)
              default) ≠ k := by
          intro hh
          rw [hh, hpres] at hlastfind
          have hij : i = p.elementVector.length - 1 := by injection hlastfind
          omega
        rw [mapFind_mapSet_ne _ _ _ _ (fun hh => hlastne hh.symm)]
        exact mapFind_mapErase_self _ _
    · rw [removeItem_eq_clear p k hlen]
      rfl
  · rw [if_neg hk]
    by_cases hfind : ∃ j, mapFind p.idToIndex k = some j
    · obtain ⟨j, hj⟩ := hfind
      obtain ⟨hjlt, hjid⟩ := ha (k, j) (mem_of_mapFind_eq_some _ _ _ hj)
      simp only at hjlt hjid
      have hji : j ≠ i := by
        intro hh
        apply hk
        rw [← hjid, hh]
        exact hidslot
      by_cases hlen : 1 < p.elementVector.length
      · by_cases hlast : i = p.elementVector.length - 1
        · rw [removeItem_eq_pop p id i hpres hlen hlast]
          rw [mapFind_mapErase_ne _ _ _ hk, hj]
          have hjne : j ≠ p.elementVector.length - 1 := by
            intro hh
            exact hji (hh.trans hlast.symm)
          simp [hjne]
        · rw [removeItem_eq_swap p id i hpres hlen hlast]
          have hlastfind := hb (p.elementVector.length - 1) (by omega)
          by_cases hjl : j = p.elementVector.length - 1
          · have hkl : IdFromAABB (p.elementVector.getD
                (p.elementVector.length - 1) default) = k := by
              rw [← hjl]
              exact hjid
            rw [hkl, mapFind_mapSet_self, hj]
            simp [hjl]
          · have hkl : IdFromAABB (p.elementVector.getD
                (p.elementVector.length - 1) default) ≠ k := by
              intro hh
              rw [hh, hj] at hlastfind
              have hz : j = p.elementVector.length - 1 := by
                injection hlastfind
              exact hjl hz
            rw [mapFind_mapSet_ne _ _ _ _ (fun hh => hkl hh.symm)]
            rw [mapFind_mapErase_ne _ _ _ hk, hj]
            simp [hjl]
      · exfalso
        apply hk
        rw [← hjid]
        have hz : j = 0 := by omega
        have hz2 : i = 0 := by omega
        rw [hz]
        rw [hz2] at hidslot
        exact hidslot
    · push_neg at hfind
      have hnone : mapFind p.idToIndex k = none :=
        Option.eq_none_iff_forall_not_mem.2
          (fun v hv => hfind v (by exact hv))
      rw [hnone]
      simp only [Option.map_none']
      by_cases hlen : 1 < p.elementVector.length
      · by_cases hlast : i = p.elementVector.length - 1
        · rw [removeItem_eq_pop p id i hpres hlen hlast]
          rw [mapFind_mapErase_ne _ _ _ hk]
          exact hnone
        · rw [removeItem_eq_swap p id i hpres hlen hlast]
          have hlastfind := hb (p.elementVector.length - 1) (by omega)
          have hkl : IdFromAABB (p.elementVector.getD
              (p.elementVector.length - 1) default) ≠ k := by
            intro hh
            rw [hh, hnone] at hlastfind
            cases hlastfind
          rw [mapFind_mapSet_ne _ _ _ _ (fun hh => hkl hh.symm)]
          rw [mapFind_mapErase_ne _ _ _ hk]
          exact hnone
      · rw [removeItem_eq_clear p id hlen]
        rfl

/-- What the slots look like after a removal. -/
theorem removeItem_getD (p : SpatialPartitioner) (id : Int) (i : Nat)
    (hWF : WF p) (hpres : mapFind p.idToIndex id = some i) (j : Nat)
    (hj : j < p.elementVector.length - 1) :
    (p.RemoveItem id).elementVector.getD j default =
      if j = i ∧ i ≠ p.elementVector.length - 1 then
        p.elementVector.getD (p.elementVector.length - 1) default
      else p.elementVector.getD j default := by
  obtain ⟨⟨ha, hb, hnd⟩, hg⟩ := hWF
  have hmem := mem_of_mapFind_eq_some _ _ _ hpres
  obtain ⟨hi, hidslot⟩ := ha (id, i) hmem
  simp only at hi hidslot
  have hlen : 1 < p.elementVector.length := by omega
  by_cases hlast : i = p.elementVector.length - 1
  · rw [removeItem_eq_pop p id i hpres hlen hlast]
    simp only
    rw [getD_dropLast _ _ _ hj]
    rw [if_neg (by rintro ⟨h1, h2⟩; exact h2 hlast)]
  · rw [removeItem_eq_swap p id i hpres hlen hlast]
    simp only
    rw [getD_dropLast _ _ _ (by simpa [List.length_set] using hj)]
    by_cases h2 : j = i
    · subst h2
      rw [if_pos ⟨rfl, hlast⟩]
      exact getD_set_self _ _ _ _ (by omega)
    · rw [if_neg (by rintro ⟨h1, _⟩; exact h2 h1)]
      exact getD_set_ne _ _ _ _ _ (fun hh => h2 hh.symm)

theorem mem_filterMap_ids (pred : AABB → Bool) (l : List AABB) (k : Int) :
    k ∈ (l.filter pred).map IdFromAABB ↔
      ∃ j, j < l.length ∧ pred (l.getD j default) = true ∧
        IdFromAABB (l.getD j default) = k := by
  rw [List.mem_map]
  constructor
  · rintro ⟨a, hafil, hak⟩
    obtain ⟨hal, hap⟩ := List.mem_filter.1 hafil
    obtain ⟨j, hj, hja⟩ := List.mem_iff_getElem.1 hal
    have hgd : l.getD j default = a := by
      rw [List.getD_eq_getElem?_getD, List.getElem?_eq_getElem hj]
      exact hja
    exact ⟨j, hj, by rw [hgd]; exact hap, by rw [hgd]; exact hak⟩
  · rintro ⟨j, hj, hp, hk⟩
    exact ⟨l.getD j default, List.mem_filter.2 ⟨getD_mem _ _ _ hj, hp⟩, hk⟩

/-- After removing an id, a scan with any predicate reports exactly the
matching survivors: membership in the filtered id list is unchanged for
every other id. -/
theorem removeItem_filter_mem (p : SpatialPartitioner) (id : Int) (i : Nat)
    (hWF : WF p) (hpres : mapFind p.idToIndex id = some i)
    (pred : AABB → Bool) (k : Int) (hk : k ≠ id) :
    (k ∈ ((p.RemoveItem id).elementVector.filter pred).map IdFromAABB ↔
      k ∈ (p.elementVector.filter pred).map IdFromAABB) := by
  obtain ⟨⟨ha, hb, hnd⟩, hg⟩ := hWF
  have hmem := mem_of_mapFind_eq_some _ _ _ hpres
  obtain ⟨hi, hidslot⟩ := ha (id, i) hmem
  simp only at hi hidslot
  have hlen := removeItem_length p id i ⟨⟨ha, hb, hnd⟩, hg⟩ hpres
  rw [mem_filterMap_ids, mem_filterMap_ids, hlen]
  constructor
  · rintro ⟨j, hj, hp, hjk⟩
    rw [removeItem_getD p id i ⟨⟨ha, hb, hnd⟩, hg⟩ hpres j hj] at hp hjk
    by_cases h2 : j = i ∧ i ≠ p.elementVector.length - 1
    · rw [if_pos h2] at hp hjk
      exact ⟨p.elementVector.length - 1, by omega, hp, hjk⟩
    · rw [if_neg h2] at hp hjk
      exact ⟨j, by omega, hp, hjk⟩
  · rintro ⟨j, hj, hp, hjk⟩
    have hji : j ≠ i := by
      intro hh
      apply hk
      rw [← hjk, hh]
      exact hidslot
    by_cases hjl : j = p.elementVector.length - 1
    · have hil : i ≠ p.elementVector.length - 1 := fun hh =>
        hji (hjl.trans hh.symm)
      have hilt : i < p.elementVector.length - 1 := by omega
      refine ⟨i, hilt, ?_, ?_⟩
      · rw [removeItem_getD p id i ⟨⟨ha, hb, hnd⟩, hg⟩ hpres i hilt,
          if_pos ⟨rfl, hil⟩, ← hjl]
        exact hp
      · rw [removeItem_getD p id i ⟨⟨ha, hb, hnd⟩, hg⟩ hpres i hilt,
          if_pos ⟨rfl, hil⟩, ← hjl]
        exact hjk
    · have hjlt : j < p.elementVector.length - 1 := by omega
      refine ⟨j, hjlt, ?_, ?_⟩
      · rw [removeItem_getD p id i ⟨⟨ha, hb, hnd⟩, hg⟩ hpres j hjlt,
          if_neg (by rintro ⟨h1, _⟩; exact hji h1)]
        exact hp
      · rw [removeItem_getD p id i ⟨⟨ha, hb, hnd⟩, hg⟩ hpres j hjlt,
          if_neg (by rintro ⟨h1, _⟩; exact hji h1)]
        exact hjk

/-- Adding a fresh id and removing it again restores the store size. -/
theorem addItem_removeItem_length (p : SpatialPartitioner) (nid : Int)
    (c e : Vector3) :
    ((p.AddItem nid c e).RemoveItem nid).elementVector.length
      = p.elementVector.length := by
  have hf : mapFind (p.AddItem nid c e).idToIndex nid
      = some p.elementVector.length := by
    simp only [SpatialPartitioner.AddItem]
    exact mapFind_mapSet_self _ _ _
  by_cases hlen : 1 < (p.AddItem nid c e).elementVector.length
  · rw [removeItem_eq_pop _ nid p.elementVector.length hf hlen
      (by simp [SpatialPartitioner.AddItem])]
    simp [SpatialPartitioner.AddItem, List.length_dropLast]
  · rw [removeItem_eq_clear _ nid hlen]
    simp only [SpatialPartitioner.AddItem, List.length_append,
      List.length_cons, List.length_nil] at hlen
    simp only [List.length_nil]
    omega

/-- Claim C5, amended (the query-preservation part is restricted to calls
whose capacity does not truncate, i.e. capacity at least the store size;
with a smaller capacity the swap-reordering changes which matches fit in
the buffer): removing a present id makes HasItem(id) false, shrinks the
count by one, keeps every other live id present with its stored AABB
unchanged, preserves the match set of every intersection and containment
query with sufficient capacity for the surviving ids, and adding a fresh
id then removing it restores the store size. -/
theorem removeItem_frame (p : SpatialPartitioner) (id : Int) (i : Nat)
    (hWF : WF p) (hpres : mapFind p.idToIndex id = some i) :
    (p.RemoveItem id).HasItem id = false ∧
      (p.RemoveItem id).elementVector.length = p.elementVector.length - 1 ∧
      (∀ k, k ≠ id → p.HasItem k = true →
        (p.RemoveItem id).HasItem k = true ∧
          slotOf (p.RemoveItem id) k = slotOf p k) ∧
      (∀ qc qe : Vector3, ∀ cap : Int,
        (p.elementVector.length : Int) ≤ cap → ∀ k, k ≠ id →
          ((k ∈ (p.RemoveItem id).IntersectedBy qc qe cap ↔
              k ∈ p.IntersectedBy qc qe cap) ∧
            (k ∈ (p.RemoveItem id).ContainedBy qc qe cap ↔
              k ∈ p.ContainedBy qc qe cap))) ∧
      (∀ nid (c e : Vector3), mapFind p.idToIndex nid = none →
        ((p.AddItem nid c e).RemoveItem nid).elementVector.length
          = p.elementVector.length) := by
  obtain ⟨⟨ha, hb, hnd⟩, hg⟩ := hWF
  have hmem := mem_of_mapFind_eq_some _ _ _ hpres
  obtain ⟨hi, hidslot⟩ := ha (id, i) hmem
  simp only at hi hidslot
  have hWF2 : WF p := ⟨⟨ha, hb, hnd⟩, hg⟩
  have hlen := removeItem_length p id i hWF2 hpres
  refine ⟨?_, hlen, ?_, ?_, ?_⟩
  · unfold SpatialPartitioner.HasItem
    rw [removeItem_find p id i hWF2 hpres id, if_pos rfl]
    rfl
  · intro k hk hkh
    obtain ⟨j, hj⟩ := hasItem_exists p k hkh
    obtain ⟨hjlt, hjid⟩ := ha (k, j) (mem_of_mapFind_eq_some _ _ _ hj)
    simp only at hjlt hjid
    have hji : j ≠ i := by
      intro hh
      apply hk
      rw [← hjid, hh]
      exact hidslot
    have hfind := removeItem_find p id i hWF2 hpres k
    rw [if_neg hk, hj] at hfind
    constructor
    · unfold SpatialPartitioner.HasItem
      rw [hfind]
      rfl
    · unfold slotOf
      rw [hfind, hj]
      simp only [Option.getD_some, Option.map_some']
      by_cases hjl : j = p.elementVector.length - 1
      · have hil : i ≠ p.elementVector.length - 1 := fun hh =>
          hji (hjl.trans hh.symm)
        have hilt : i < p.elementVector.length - 1 := by omega
        rw [if_pos hjl,
          removeItem_getD p id i hWF2 hpres i hilt, if_pos ⟨rfl, hil⟩, ← hjl]
      · have hjlt2 : j < p.elementVector.length - 1 := by omega
        rw [if_neg hjl,
          removeItem_getD p id i hWF2 hpres j hjlt2,
          if_neg (by rintro ⟨h1, _⟩; exact hji h1)]
  · intro qc qe cap hcap k hk
    have hcap2 : ((p.RemoveItem id).elementVector.length : Int) ≤ cap := by
      rw [hlen]
      push_cast
      omega
    constructor
    · rw [intersectedBy_eq_filter _ _ _ _ hcap2,
        intersectedBy_eq_filter _ _ _ _ hcap]
      exact removeItem_filter_mem p id i hWF2 hpres _ k hk
    · rw [containedBy_eq_filter _ _ _ _ hcap2,
        containedBy_eq_filter _ _ _ _ hcap]
      exact removeItem_filter_mem p id i hWF2 hpres _ k hk
  · intro nid c e _
    exact addItem_removeItem_length p nid c e

/-- Two-element store used in the C5 witness. -/
def twoBoxStore : SpatialPartitioner :=
  (emptyPartitioner.AddItem 1 ⟨0, 0, 0⟩ ⟨1, 1, 1⟩).AddItem 2 ⟨3, 3, 3⟩ ⟨1, 1, 1⟩

theorem boxTwo33_eval :
    mkAABB 2 ⟨3, 3, 3⟩ ⟨1, 1, 1⟩ = ⟨2, 2, 2, 2, 4, 4, 4, 2⟩ := by
  unfold mkAABB
  congr 1 <;> first | norm_num | decide

theorem twoBoxStore_eval :
    twoBoxStore = ⟨[⟨-1, -1, -1, 1, 1, 1, 1, 1⟩, ⟨2, 2, 2, 2, 4, 4, 4, 2⟩],
      [(1, 0), (2, 1)]⟩ := by
  unfold twoBoxStore SpatialPartitioner.AddItem emptyPartitioner
  rw [boxOne_eval, boxTwo33_eval]
  rfl

/-- Witness for the amended C5: the two-element store, removing id 1. -/
theorem removeItem_frame_witness :
    (twoBoxStore.RemoveItem 1).HasItem 1 = false ∧
      (twoBoxStore.RemoveItem 1).elementVector.length
        = twoBoxStore.elementVector.length - 1 ∧
      (∀ k, k ≠ 1 → twoBoxStore.HasItem k = true →
        (twoBoxStore.RemoveItem 1).HasItem k = true ∧
          slotOf (twoBoxStore.RemoveItem 1) k = slotOf twoBoxStore k) ∧
      (∀ qc qe : Vector3, ∀ cap : Int,
        (twoBoxStore.elementVector.length : Int) ≤ cap → ∀ k, k ≠ 1 →
          ((k ∈ (twoBoxStore.RemoveItem 1).IntersectedBy qc qe cap ↔
              k ∈ twoBoxStore.IntersectedBy qc qe cap) ∧
            (k ∈ (twoBoxStore.RemoveItem 1).ContainedBy qc qe cap ↔
              k ∈ twoBoxStore.ContainedBy qc qe cap))) ∧
      (∀ nid (c e : Vector3), mapFind twoBoxStore.idToIndex nid = none →
        ((twoBoxStore.AddItem nid c e).RemoveItem nid).elementVector.length
          = twoBoxStore.elementVector.length) :=
  removeItem_frame twoBoxStore 1 0
    (by rw [twoBoxStore_eval]; decide)
    (by rw [twoBoxStore_eval]; decide)

theorem boxTwo_eval :
    mkAABB 2 ⟨0, 0, 0⟩ ⟨1, 1, 1⟩ = ⟨-1, -1, -1, 2, 1, 1, 1, 2⟩ := by
  unfold mkAABB
  congr 1 <;> first | norm_num | decide

theorem boxThree_eval :
    mkAABB 3 ⟨0, 0, 0⟩ ⟨1, 1, 1⟩ = ⟨-1, -1, -1, 3, 1, 1, 1, 3⟩ := by
  unfold mkAABB
  congr 1 <;> first | norm_num | decide

theorem boxFour_eval :
    mkAABB 4 ⟨0, 0, 0⟩ ⟨1, 1, 1⟩ = ⟨-1, -1, -1, 4, 1, 1, 1, 4⟩ := by
  unfold mkAABB
  congr 1 <;> first | norm_num | decide

/-- Four identical unit boxes with ids 1..4, used in the C5
counterexample. -/
def fourBoxStore : SpatialPartitioner :=
  (((emptyPartitioner.AddItem 1 ⟨0, 0, 0⟩ ⟨1, 1, 1⟩).AddItem 2
    ⟨0, 0, 0⟩ ⟨1, 1, 1⟩).AddItem 3 ⟨0, 0, 0⟩ ⟨1, 1, 1⟩).AddItem 4
    ⟨0, 0, 0⟩ ⟨1, 1, 1⟩

theorem fourBoxStore_eval :
    fourBoxStore = ⟨[⟨-1, -1, -1, 1, 1, 1, 1, 1⟩, ⟨-1, -1, -1, 2, 1, 1, 1, 2⟩,
      ⟨-1, -1, -1, 3, 1, 1, 1, 3⟩, ⟨-1, -1, -1, 4, 1, 1, 1, 4⟩],
      [(1, 0), (2, 1), (3, 2), (4, 3)]⟩ := by
  unfold fourBoxStore SpatialPartitioner.AddItem emptyPartitioner
  rw [boxOne_eval, boxTwo_eval, boxThree_eval, boxFour_eval]
  rfl

/-- Claim C5, counterexample: with a capacity that truncates (capacity 2,
four matches), removing id 1 changes which surviving ids the same query
reports: the swap moves id 4 to the front, so id 4 is reported after the
removal but was not reported before it, although it was live both
times. -/
theorem removeItem_query_cex :
    fourBoxStore.HasItem 4 = true ∧ ((4 : Int) ≠ 1) ∧
      (fourBoxStore.RemoveItem 1).HasItem 4 = true ∧
      fourBoxStore.IntersectedBy ⟨0, 0, 0⟩ ⟨1, 1, 1⟩ 2 = [1, 2] ∧
      (fourBoxStore.RemoveItem 1).IntersectedBy ⟨0, 0, 0⟩ ⟨1, 1, 1⟩ 2
        = [4, 2] := by
  unfold SpatialPartitioner.IntersectedBy
  rw [fourBoxStore_eval]
  simp only [queryBox0_eval]
  decide

end Blocks
